import Mathlib

/-!
# Association-rule mining core: shallow embedding and verification

The repository (`src/main.py`) prepares rental-listing records into
transactions (lists of string item labels) and mines them with an
Apriori-style frequent-itemset search followed by association-rule
derivation with support/confidence/lift metrics and a minimum-threshold
filter.  The mining core itself (transaction encoder, level-wise miner,
rule generator) is delegated to a library call in the script, so its code
is not part of the repository sources.  We embed:

* the transaction-building step of `src/main.py` (PART 3) directly from
  the source, and
* the mining core (encoder, miner, rule generator) modelled from the
  spec (§4.1–§4.3, §6, §7).

Items are an arbitrary type with decidable equality; transactions are
finite sets of items; a transaction database is the ordered list of
per-record transactions; supports, thresholds and rule metrics are exact
rationals.
-/

namespace AssocMining

variable {α : Type} [DecidableEq α]

/-- A transaction database: the ordered sequence of per-record item sets. -/
abbrev TransactionDB (α : Type) := List (Finset α)

/-- Number of transactions containing the itemset `I` as a subset. -/
def supportCount (db : TransactionDB α) (I : Finset α) : ℕ :=
  (db.filter (fun t => I ⊆ t)).length

/-- support(I) = (count of transactions containing I) / (total transaction
count), an exact rational in [0,1] (0 when the database is empty). -/
def support (db : TransactionDB α) (I : Finset α) : ℚ :=
  (supportCount db I : ℚ) / (db.length : ℚ)

/-- The item universe: the set of all distinct items appearing across all
transactions. -/
def universeItems (db : TransactionDB α) : Finset α :=
  db.foldr (fun t u => t ∪ u) ∅

/-- Modelled from the spec: the level-wise (Apriori) frequent-itemset
search of §4.2, whose implementation is delegated to a library call at
`src/main.py:128` and is not part of the repository sources.  `freqLevel
db ms k` is the level set Lk of frequent itemsets of size `k`.  Level 1
retains the single items whose support meets `ms`.  At level k ≥ 2, the
canonical-order join of pairs of frequent (k−1)-itemsets sharing k−2
items, followed by the subset-pruning step, yields exactly the size-k
subsets of the universe all of whose (k−1)-subsets lie in L(k−1); the
surviving candidates are counted against the transaction set and those
meeting `ms` are retained. -/
def freqLevel (db : TransactionDB α) (ms : ℚ) : ℕ → Finset (Finset α)
  | 0 => ∅
  | 1 => (universeItems db).powerset.filter
      (fun I => I.card = 1 ∧ ms ≤ support db I)
  | (k + 2) => (universeItems db).powerset.filter
      (fun I => I.card = k + 2 ∧
        (∀ S ∈ I.powerset, S.card = k + 1 → S ∈ freqLevel db ms (k + 1)) ∧
        ms ≤ support db I)

/-- Modelled from the spec: the union of all frequent levels L1..Lk
(§4.2 step 5); levels past the first empty one are empty, so taking the
union up to the size of the item universe is the same as stopping at the
first empty level. -/
def aprioriSets (db : TransactionDB α) (ms : ℚ) : Finset (Finset α) :=
  (Finset.range (universeItems db).card).biUnion (fun k => freqLevel db ms (k + 1))

/-- Modelled from the spec: the miner output, each frequent itemset tagged
with its exact support value (§4.2, §6). -/
def apriori (db : TransactionDB α) (ms : ℚ) : Finset (Finset α × ℚ) :=
  (aprioriSets db ms).image (fun I => (I, support db I))

/-- Modelled from the spec: the error kinds of §7. -/
inductive MiningError : Type where
  | invalidInput : MiningError
  | invalidParameter : MiningError
  | divisionUndefined : MiningError
deriving DecidableEq

/-- Modelled from the spec: the metric a rule filter can select (§6). -/
inductive Metric : Type where
  | support : Metric
  | confidence : Metric
  | lift : Metric
deriving DecidableEq

/-- Modelled from the spec: an association rule with its computed metrics
(§3, §6). -/
structure Rule (α : Type) where
  antecedent : Finset α
  consequent : Finset α
  support : ℚ
  confidence : ℚ
  lift : ℚ
deriving DecidableEq

/-- The value of the selected metric on a rule. -/
def metricValue : Metric → Rule α → ℚ
  | Metric.support, r => r.support
  | Metric.confidence, r => r.confidence
  | Metric.lift, r => r.lift

/-- Modelled from the spec: the metrics of the rule `A → C`, recomputed
from the transaction database (§3): support = support(A ∪ C), confidence
= support(A ∪ C) / support(A), lift = confidence / support(C). -/
def ruleRecord (db : TransactionDB α) (A C : Finset α) : Rule α :=
  { antecedent := A
    consequent := C
    support := support db (A ∪ C)
    confidence := support db (A ∪ C) / support db A
    lift := support db (A ∪ C) / support db A / support db C }

/-- Modelled from the spec: the guarded per-rule metric computation
(§4.3): fails with `DivisionUndefinedError` when support(A) = 0, or when
support(C) = 0 for the lift computation. -/
def ruleMetrics (db : TransactionDB α) (A C : Finset α) :
    Except MiningError (Rule α) :=
  if support db A = 0 then Except.error MiningError.divisionUndefined
  else if support db C = 0 then Except.error MiningError.divisionUndefined
  else Except.ok (ruleRecord db A C)

/-- The frequent itemsets a rule can be split from: those of size ≥ 2. -/
def candidates (freq : Finset (Finset α)) : Finset (Finset α) :=
  freq.filter (fun I => 2 ≤ I.card)

/-- The antecedent choices for a frequent itemset `I`: every non-empty
proper subset of `I`. -/
def antecedents (I : Finset α) : Finset (Finset α) :=
  I.powerset.filter (fun A => A ≠ ∅ ∧ A ≠ I)

/-- All rules derivable from the frequent itemsets, before the metric
filter: for each frequent `I` with |I| ≥ 2 and each antecedent `A`, the
rule `A → I \ A` with metrics recomputed from the database. -/
def baseRules (db : TransactionDB α) (freq : Finset (Finset α)) :
    Finset (Rule α) :=
  (candidates freq).biUnion
    (fun I => (antecedents I).image (fun A => ruleRecord db A (I \ A)))

/-- Modelled from the spec: the rule generator of §4.3, whose
implementation is delegated to a library call at `src/main.py:135` and is
not part of the repository sources.  It fails fast with
`DivisionUndefinedError` whenever some enumerated antecedent/consequent
split has a zero-support denominator (no partial results, §7); otherwise
it returns exactly the rules whose selected metric meets `minThreshold`. -/
def associationRules (db : TransactionDB α) (freq : Finset (Finset α))
    (m : Metric) (minThreshold : ℚ) : Except MiningError (Finset (Rule α)) :=
  if ∃ I ∈ candidates freq, ∃ A ∈ antecedents I,
      support db A = 0 ∨ support db (I \ A) = 0 then
    Except.error MiningError.divisionUndefined
  else
    Except.ok ((baseRules db freq).filter (fun r => minThreshold ≤ metricValue m r))

/-- Python's `str.strip`: remove leading and trailing whitespace
(structural definition over the character list). -/
def strip (s : String) : String :=
  ⟨((s.data.dropWhile Char.isWhitespace).reverse.dropWhile Char.isWhitespace).reverse⟩

/-- Modelled from the spec: cleaning of one raw transaction (§4.1) —
labels are stripped of surrounding whitespace, and empty/blank labels are
discarded. -/
def cleanList (t : List String) : List String :=
  (t.map strip).filter (fun s => s ≠ "")

/-- Modelled from the spec: the resolved item set of one transaction —
duplicates collapse to set semantics (§4.1, §3). -/
def cleanTransaction (t : List String) : Finset String :=
  (cleanList t).toFinset

/-- Lexicographic comparison of character lists, the canonical item
ordering (agrees with the library order on `String`, see
`charListLe_iff_not_lt`). -/
def charListLe : List Char → List Char → Bool
  | [], _ => true
  | _ :: _, [] => false
  | a :: as, b :: bs =>
      if a < b then true else if b < a then false else charListLe as bs

/-- The canonical (lexicographic) order on item labels. -/
def itemLe (s t : String) : Bool := charListLe s.data t.data

/-- Insertion of an item into a list sorted by `itemLe`. -/
def insertItem (x : String) : List String → List String
  | [] => [x]
  | y :: ys => if itemLe x y then x :: y :: ys else y :: insertItem x ys

/-- Insertion sort by the canonical item order. -/
def sortItems (l : List String) : List String := l.foldr insertItem []

/-- Modelled from the spec: the transaction encoder of §4.1, whose
implementation is delegated to a library call at `src/main.py:119-120`
and is not part of the repository sources.  Given the ordered sequence of
raw transactions it returns (a) the sorted universe of distinct non-empty
items and (b) the resolved item set of each transaction; it fails with
`InvalidInputError` when the sequence is empty or every transaction is
empty (no items to mine). -/
def encode (raw : List (List String)) :
    Except MiningError (List String × List (Finset String)) :=
  if ((raw.map cleanList).flatten).dedup = [] then
    Except.error MiningError.invalidInput
  else
    Except.ok (sortItems ((raw.map cleanList).flatten).dedup,
      raw.map cleanTransaction)

/-- One prepared record of `src/main.py` PART 2: the discretized
structural labels (`Price_Bin`, `Size_Bin`, `Bed_Label`, `Bath_Label`,
`state`) and the raw `amenities` string, where a missing amenities field
has been filled with the placeholder `'NoAmenities'`
(`src/main.py:45`). -/
structure ListingRecord : Type where
  priceBin : String
  sizeBin : String
  bedLabel : String
  bathLabel : String
  state : String
  amenities : String
deriving DecidableEq

/-- The basket-building loop body of `src/main.py:86-105`: the basket
starts with the five structural labels; unless the amenities field equals
the placeholder `'NoAmenities'`, the amenities string is split on commas,
each piece is stripped, and the non-empty pieces are appended. -/
def buildBasket (r : ListingRecord) : List String :=
  let basket := [r.priceBin, r.sizeBin, r.bedLabel, r.bathLabel, r.state]
  if r.amenities ≠ "NoAmenities" then
    basket ++ ((r.amenities.splitOn ",").map strip).filter (fun a => a ≠ "")
  else
    basket

/-- The transaction list built from all prepared records
(`src/main.py:84-105`). -/
def buildTransactions (rs : List ListingRecord) : List (List String) :=
  rs.map buildBasket

/-- The concrete scenario of spec §8 with A = 0, B = 1, C = 2:
transactions [{A,B,C}, {A,B}, {A,C}, {A}, {B,C}]. -/
def exampleDB : TransactionDB ℕ :=
  [{0, 1, 2}, {0, 1}, {0, 2}, {0}, {1, 2}]

theorem supportCount_mono (db : TransactionDB α) {I J : Finset α}
    (hIJ : I ⊆ J) : supportCount db J ≤ supportCount db I := by
  induction db with
  | nil => simp [supportCount]
  | cons t ts ih =>
      by_cases hJ : J ⊆ t
      · have hI : I ⊆ t := hIJ.trans hJ
        simpa [supportCount, List.filter, hI, hJ] using Nat.succ_le_succ ih
      · by_cases hI : I ⊆ t
        · simp only [supportCount, List.filter, hI, hJ]
          simpa [supportCount] using Nat.le_succ_of_le ih
        · simpa [supportCount, List.filter, hI, hJ] using ih

theorem supportCount_le_length (db : TransactionDB α) (I : Finset α) :
    supportCount db I ≤ db.length :=
  List.length_filter_le _ _

/-- Antimonotonicity at the level of rational supports. -/
theorem support_antimono (db : TransactionDB α) {I J : Finset α}
    (hIJ : I ⊆ J) : support db J ≤ support db I := by
  rcases eq_or_ne db [] with rfl | hne
  · simp [support]
  · have hlen : (0 : ℚ) < (db.length : ℚ) := by
      exact_mod_cast List.length_pos.mpr hne
    have hc : (supportCount db J : ℚ) ≤ (supportCount db I : ℚ) := by
      exact_mod_cast supportCount_mono db hIJ
    unfold support
    gcongr

theorem support_nonneg (db : TransactionDB α) (I : Finset α) :
    0 ≤ support db I := by
  apply div_nonneg <;> positivity

theorem support_le_one (db : TransactionDB α) (I : Finset α) :
    support db I ≤ 1 := by
  rcases eq_or_ne db [] with rfl | hne
  · simp [support]
  · have hlen : (0 : ℚ) < (db.length : ℚ) := by
      exact_mod_cast List.length_pos.mpr hne
    rw [support, div_le_one hlen]
    exact_mod_cast supportCount_le_length db I

theorem mem_universeItems_of_mem {db : TransactionDB α} {t : Finset α}
    (ht : t ∈ db) : t ⊆ universeItems db := by
  induction db with
  | nil => cases ht
  | cons s ss ih =>
      rcases List.mem_cons.mp ht with rfl | ht
      · intro x hx
        exact Finset.mem_union_left _ hx
      · intro x hx
        exact Finset.mem_union_right _ (ih ht hx)

theorem exists_trans_of_supportCount_pos {db : TransactionDB α}
    {I : Finset α} (h : 0 < supportCount db I) : ∃ t ∈ db, I ⊆ t := by
  have hne : db.filter (fun t => I ⊆ t) ≠ [] := by
    intro heq
    rw [supportCount, heq] at h
    simp at h
  obtain ⟨t, ht⟩ := List.exists_mem_of_ne_nil _ hne
  have hmem := List.mem_filter.mp ht
  exact ⟨t, hmem.1, by simpa using hmem.2⟩

theorem supportCount_pos_of_support_pos {db : TransactionDB α}
    {I : Finset α} (h : 0 < support db I) : 0 < supportCount db I := by
  by_contra hc
  push_neg at hc
  have hz : supportCount db I = 0 := Nat.le_zero.mp hc
  rw [support, hz] at h
  simp at h

theorem subset_universe_of_support_pos {db : TransactionDB α}
    {I : Finset α} (h : 0 < support db I) : I ⊆ universeItems db := by
  obtain ⟨t, htdb, hIt⟩ :=
    exists_trans_of_supportCount_pos (supportCount_pos_of_support_pos h)
  exact hIt.trans (mem_universeItems_of_mem htdb)

theorem mem_freqLevel_sound {db : TransactionDB α} {ms : ℚ} :
    ∀ {k : ℕ} {I : Finset α}, I ∈ freqLevel db ms k →
      I ⊆ universeItems db ∧ I.card = k ∧ ms ≤ support db I := by
  intro k I h
  match k with
  | 0 => simp [freqLevel] at h
  | 1 =>
      rw [freqLevel] at h
      rcases Finset.mem_filter.mp h with ⟨hp, hcard, hsupp⟩
      exact ⟨Finset.mem_powerset.mp hp, hcard, hsupp⟩
  | (k + 2) =>
      rw [freqLevel] at h
      rcases Finset.mem_filter.mp h with ⟨hp, hcard, _, hsupp⟩
      exact ⟨Finset.mem_powerset.mp hp, hcard, hsupp⟩

theorem mem_freqLevel_complete (db : TransactionDB α) (ms : ℚ) :
    ∀ (k : ℕ) (I : Finset α), I.card = k + 1 → I ⊆ universeItems db →
      ms ≤ support db I → I ∈ freqLevel db ms (k + 1) := by
  intro k
  induction k with
  | zero =>
      intro I hcard hsub hsupp
      rw [freqLevel]
      exact Finset.mem_filter.mpr ⟨Finset.mem_powerset.mpr hsub, hcard, hsupp⟩
  | succ k ih =>
      intro I hcard hsub hsupp
      have h2 : k + 1 + 1 = k + 2 := rfl
      rw [h2, freqLevel]
      refine Finset.mem_filter.mpr ⟨Finset.mem_powerset.mpr hsub, hcard, ?_, hsupp⟩
      intro S hS hScard
      have hSI : S ⊆ I := Finset.mem_powerset.mp hS
      exact ih S hScard (hSI.trans hsub) (le_trans hsupp (support_antimono db hSI))

theorem freqLevel_anti (db : TransactionDB α) {ms ms' : ℚ} (hms : ms ≤ ms') :
    ∀ k, freqLevel db ms' k ⊆ freqLevel db ms k := by
  intro k
  induction k using Nat.strong_induction_on with
  | _ k ih =>
      match k with
      | 0 => simp [freqLevel]
      | 1 =>
          intro I hI
          rw [freqLevel] at hI ⊢
          rcases Finset.mem_filter.mp hI with ⟨hp, hcard, hsupp⟩
          exact Finset.mem_filter.mpr ⟨hp, hcard, le_trans hms hsupp⟩
      | (k + 2) =>
          intro I hI
          rw [freqLevel] at hI ⊢
          rcases Finset.mem_filter.mp hI with ⟨hp, hcard, hsub, hsupp⟩
          refine Finset.mem_filter.mpr ⟨hp, hcard, ?_, le_trans hms hsupp⟩
          intro S hS hScard
          exact ih (k + 1) (by omega) (hsub S hS hScard)

theorem aprioriSets_anti (db : TransactionDB α) {ms ms' : ℚ} (hms : ms ≤ ms') :
    aprioriSets db ms' ⊆ aprioriSets db ms := by
  intro I hI
  rcases Finset.mem_biUnion.mp hI with ⟨k, hk, hmem⟩
  exact Finset.mem_biUnion.mpr ⟨k, hk, freqLevel_anti db hms (k + 1) hmem⟩

theorem mem_aprioriSets_iff (db : TransactionDB α) {ms : ℚ} (h0 : 0 < ms)
    {I : Finset α} (hne : I.Nonempty) :
    I ∈ aprioriSets db ms ↔ ms ≤ support db I := by
  constructor
  · intro hI
    rcases Finset.mem_biUnion.mp hI with ⟨k, _, hmem⟩
    exact (mem_freqLevel_sound hmem).2.2
  · intro hsupp
    have hpos : 0 < support db I := lt_of_lt_of_le h0 hsupp
    have hsub : I ⊆ universeItems db := subset_universe_of_support_pos hpos
    have hcard : 0 < I.card := Finset.card_pos.mpr hne
    refine Finset.mem_biUnion.mpr ⟨I.card - 1, ?_, ?_⟩
    · rw [Finset.mem_range]
      have hle : I.card ≤ (universeItems db).card := Finset.card_le_card hsub
      omega
    · exact mem_freqLevel_complete db ms (I.card - 1) I (by omega) hsub hsupp

/-- C1: for every transaction database and every min_support in (0,1], the
miner returns exactly the itemsets (of every size ≥ 1) whose support meets
min_support — every output itemset has support ≥ min_support, and every
itemset not output has support < min_support — and each output itemset is
tagged with its exact support value. -/
theorem miner_threshold_correct (db : TransactionDB α) (ms : ℚ)
    (h0 : 0 < ms) (h1 : ms ≤ 1) (I : Finset α) (hne : I.Nonempty) :
    (I ∈ aprioriSets db ms ↔ ms ≤ support db I) ∧
    (∀ p ∈ apriori db ms, p.2 = support db p.1) := by
  refine ⟨mem_aprioriSets_iff db h0 hne, ?_⟩
  intro p hp
  rcases Finset.mem_image.mp hp with ⟨J, hJ, rfl⟩
  rfl

/-- Witness for C1 at the spec §8 scenario with min_support = 2/5 and
I = \x7bA, B\x7d. -/
theorem miner_threshold_correct_witness :
    (0 : ℚ) < 2/5 ∧ (2 : ℚ)/5 ≤ 1 ∧ ({0, 1} : Finset ℕ).Nonempty ∧
    ((({0, 1} : Finset ℕ) ∈ aprioriSets exampleDB (2/5) ↔
        (2 : ℚ)/5 ≤ support exampleDB {0, 1}) ∧
      (∀ p ∈ apriori exampleDB (2/5), p.2 = support exampleDB p.1)) :=
  ⟨by norm_num, by norm_num, by decide,
    miner_threshold_correct exampleDB (2/5) (by norm_num) (by norm_num)
      {0, 1} (by decide)⟩

/-- C4: antimonotonicity of support — for every transaction database and
all itemsets I ⊆ J, support(I) ≥ support(J). -/
theorem support_antimonotonicity (db : TransactionDB α) (I J : Finset α)
    (hIJ : I ⊆ J) : support db J ≤ support db I :=
  support_antimono db hIJ

/-- Witness for C4: \x7bA\x7d ⊆ \x7bA, B\x7d in the spec §8 scenario. -/
theorem support_antimonotonicity_witness :
    ({0} : Finset ℕ) ⊆ {0, 1} ∧
      support exampleDB {0, 1} ≤ support exampleDB {0} :=
  ⟨by decide, support_antimonotonicity exampleDB {0} {0, 1} (by decide)⟩

theorem associationRules_ok_eq {db : TransactionDB α} {freq : Finset (Finset α)}
    {m : Metric} {θ : ℚ} {rs : Finset (Rule α)}
    (h : associationRules db freq m θ = Except.ok rs) :
    rs = (baseRules db freq).filter (fun r => θ ≤ metricValue m r) := by
  rw [associationRules] at h
  split at h
  · cases h
  · injection h with h
    exact h.symm

theorem mem_baseRules_iff {db : TransactionDB α} {freq : Finset (Finset α)}
    {r : Rule α} :
    r ∈ baseRules db freq ↔
      ∃ I ∈ freq, 2 ≤ I.card ∧ ∃ A, A ⊆ I ∧ A ≠ ∅ ∧ A ≠ I ∧
        r = ruleRecord db A (I \ A) := by
  constructor
  · intro hr
    rcases Finset.mem_biUnion.mp hr with ⟨I, hI, hr⟩
    rcases Finset.mem_filter.mp hI with ⟨hIfreq, hIcard⟩
    rcases Finset.mem_image.mp hr with ⟨A, hA, rfl⟩
    rcases Finset.mem_filter.mp hA with ⟨hAp, hAne, hAneI⟩
    exact ⟨I, hIfreq, hIcard, A, Finset.mem_powerset.mp hAp, hAne, hAneI, rfl⟩
  · rintro ⟨I, hIfreq, hIcard, A, hAI, hAne, hAneI, rfl⟩
    refine Finset.mem_biUnion.mpr
      ⟨I, Finset.mem_filter.mpr ⟨hIfreq, hIcard⟩, ?_⟩
    exact Finset.mem_image.mpr
      ⟨A, Finset.mem_filter.mpr ⟨Finset.mem_powerset.mpr hAI, hAne, hAneI⟩, rfl⟩

/-- C2: on success, the rule generator outputs exactly the rules obtained
by splitting a frequent itemset I with |I| ≥ 2 into a non-empty proper
antecedent A and consequent I \ A whose selected metric meets the
threshold, and every output rule has disjoint non-empty antecedent and
consequent. -/
theorem rule_generator_correct (db : TransactionDB α)
    (freq : Finset (Finset α)) (m : Metric) (θ : ℚ) (rs : Finset (Rule α))
    (h : associationRules db freq m θ = Except.ok rs) :
    (∀ r : Rule α, r ∈ rs ↔
        (∃ I ∈ freq, 2 ≤ I.card ∧ ∃ A, A ⊆ I ∧ A ≠ ∅ ∧ A ≠ I ∧
          r = ruleRecord db A (I \ A)) ∧ θ ≤ metricValue m r) ∧
    (∀ r ∈ rs, r.antecedent ∩ r.consequent = ∅ ∧
        r.antecedent ≠ ∅ ∧ r.consequent ≠ ∅) := by
  have hrs := associationRules_ok_eq h
  subst hrs
  constructor
  · intro r
    rw [Finset.mem_filter, mem_baseRules_iff]
  · intro r hr
    rcases Finset.mem_filter.mp hr with ⟨hbase, _⟩
    rcases mem_baseRules_iff.mp hbase with ⟨I, _, _, A, hAI, hAne, hAneI, rfl⟩
    refine ⟨?_, ?_, ?_⟩
    · simp [ruleRecord, Finset.inter_sdiff_self]
    · simpa [ruleRecord] using hAne
    · have hns : ¬ I ⊆ A := fun hsub => hAneI (Finset.Subset.antisymm hAI hsub)
      have hne : (I \ A).Nonempty := Finset.sdiff_nonempty.mpr hns
      simpa [ruleRecord] using Finset.nonempty_iff_ne_empty.mp hne

/-- Witness for C2: the generator run on an empty frequent-itemset
collection succeeds with no rules. -/
theorem rule_generator_correct_witness :
    associationRules exampleDB (∅ : Finset (Finset ℕ)) Metric.lift 1 =
        Except.ok ∅ ∧
    ((∀ r : Rule ℕ, r ∈ (∅ : Finset (Rule ℕ)) ↔
        (∃ I ∈ (∅ : Finset (Finset ℕ)), 2 ≤ I.card ∧
            ∃ A, A ⊆ I ∧ A ≠ ∅ ∧ A ≠ I ∧
              r = ruleRecord exampleDB A (I \ A)) ∧
          (1 : ℚ) ≤ metricValue Metric.lift r) ∧
      (∀ r ∈ (∅ : Finset (Rule ℕ)), r.antecedent ∩ r.consequent = ∅ ∧
          r.antecedent ≠ ∅ ∧ r.consequent ≠ ∅)) :=
  ⟨rfl, rule_generator_correct exampleDB ∅ Metric.lift 1 ∅ rfl⟩

/-- C3: every rule output by the generator carries exactly the metrics of
§3 recomputed from the transaction database: support = support(A ∪ C),
confidence = support(A ∪ C) / support(A), lift = confidence /
support(C). -/
theorem rule_metrics_correct (db : TransactionDB α)
    (freq : Finset (Finset α)) (m : Metric) (θ : ℚ) (rs : Finset (Rule α))
    (h : associationRules db freq m θ = Except.ok rs) :
    ∀ r ∈ rs,
      r.support = support db (r.antecedent ∪ r.consequent) ∧
      r.confidence =
        support db (r.antecedent ∪ r.consequent) / support db r.antecedent ∧
      r.lift = r.confidence / support db r.consequent := by
  have hrs := associationRules_ok_eq h
  subst hrs
  intro r hr
  rcases Finset.mem_filter.mp hr with ⟨hbase, _⟩
  rcases mem_baseRules_iff.mp hbase with ⟨I, _, _, A, _, _, _, rfl⟩
  exact ⟨rfl, rfl, rfl⟩

/-- Witness for C3 at the empty frequent-itemset collection. -/
theorem rule_metrics_correct_witness :
    associationRules exampleDB (∅ : Finset (Finset ℕ)) Metric.confidence 1 =
        Except.ok ∅ ∧
    (∀ r ∈ (∅ : Finset (Rule ℕ)),
      r.support = support exampleDB (r.antecedent ∪ r.consequent) ∧
      r.confidence = support exampleDB (r.antecedent ∪ r.consequent) /
          support exampleDB r.antecedent ∧
      r.lift = r.confidence / support exampleDB r.consequent) :=
  ⟨rfl, rule_metrics_correct exampleDB ∅ Metric.confidence 1 ∅ rfl⟩

/-- C6: the per-rule metric computation signals DivisionUndefinedError
exactly when support(antecedent) = 0 or support(consequent) = 0, and a
successful computation returns exactly the §3 metric values with both
denominators non-zero — never NaN or garbage. -/
theorem rule_division_guard (db : TransactionDB α) (A C : Finset α) :
    (ruleMetrics db A C = Except.error MiningError.divisionUndefined ↔
      support db A = 0 ∨ support db C = 0) ∧
    (∀ r : Rule α, ruleMetrics db A C = Except.ok r →
      support db A ≠ 0 ∧ support db C ≠ 0 ∧ r = ruleRecord db A C) := by
  constructor
  · constructor
    · intro h
      by_contra hc
      push_neg at hc
      rw [ruleMetrics, if_neg hc.1, if_neg hc.2] at h
      cases h
    · intro h
      rw [ruleMetrics]
      rcases h with h | h
      · rw [if_pos h]
      · by_cases hA : support db A = 0
        · rw [if_pos hA]
        · rw [if_neg hA, if_pos h]
  · intro r h
    by_cases hA : support db A = 0
    · rw [ruleMetrics, if_pos hA] at h
      cases h
    · by_cases hC : support db C = 0
      · rw [ruleMetrics, if_neg hA, if_pos hC] at h
        cases h
      · rw [ruleMetrics, if_neg hA, if_neg hC] at h
        injection h with h
        exact ⟨hA, hC, h.symm⟩

/-- Witness for C6 at a concrete antecedent/consequent pair. -/
theorem rule_division_guard_witness :
    (ruleMetrics exampleDB ({0} : Finset ℕ) {1} =
        Except.error MiningError.divisionUndefined ↔
      support exampleDB ({0} : Finset ℕ) = 0 ∨
        support exampleDB ({1} : Finset ℕ) = 0) ∧
    (∀ r : Rule ℕ, ruleMetrics exampleDB ({0} : Finset ℕ) {1} = Except.ok r →
      support exampleDB ({0} : Finset ℕ) ≠ 0 ∧
        support exampleDB ({1} : Finset ℕ) ≠ 0 ∧
        r = ruleRecord exampleDB {0} {1}) :=
  rule_division_guard exampleDB {0} {1}

/-- C7: for a fixed transaction database, raising min_support never
increases the number of frequent itemsets returned by the miner, and for
a fixed database and frequent-itemset collection, raising min_threshold
never increases the number of rules returned by the rule generator. -/
theorem threshold_monotone_response (db : TransactionDB α)
    (freq : Finset (Finset α)) (m : Metric) (ms ms' θ θ' : ℚ)
    (rs rs' : Finset (Rule α)) (hms : ms ≤ ms') (hθ : θ ≤ θ')
    (h : associationRules db freq m θ = Except.ok rs)
    (h' : associationRules db freq m θ' = Except.ok rs') :
    (aprioriSets db ms').card ≤ (aprioriSets db ms).card ∧
      rs'.card ≤ rs.card := by
  constructor
  · exact Finset.card_le_card (aprioriSets_anti db hms)
  · have e := associationRules_ok_eq h
    have e' := associationRules_ok_eq h'
    subst e
    subst e'
    apply Finset.card_le_card
    intro r hr
    rcases Finset.mem_filter.mp hr with ⟨hb, hv⟩
    exact Finset.mem_filter.mpr ⟨hb, le_trans hθ hv⟩

/-- Witness for C7: min_support 1/2 raised to 1, min_threshold 1 raised
to 2, on the spec §8 database and an empty frequent-itemset collection. -/
theorem threshold_monotone_response_witness :
    (1 : ℚ)/2 ≤ 1 ∧ (1 : ℚ) ≤ 2 ∧
    associationRules exampleDB (∅ : Finset (Finset ℕ)) Metric.lift 1 =
        Except.ok ∅ ∧
    associationRules exampleDB (∅ : Finset (Finset ℕ)) Metric.lift 2 =
        Except.ok ∅ ∧
    ((aprioriSets exampleDB 1).card ≤ (aprioriSets exampleDB (1/2)).card ∧
      (∅ : Finset (Rule ℕ)).card ≤ (∅ : Finset (Rule ℕ)).card) :=
  ⟨by norm_num, by norm_num, rfl, rfl,
    threshold_monotone_response exampleDB ∅ Metric.lift (1/2) 1 1 2 ∅ ∅
      (by norm_num) (by norm_num) rfl rfl⟩

/-- C8: determinism — two mining runs on the same input transactions and
the same parameters produce identical frequent-itemset collections and
identical rule-generator results, as unordered collections (`Finset`s). -/
theorem mining_deterministic (db₁ db₂ : TransactionDB α) (ms₁ ms₂ θ₁ θ₂ : ℚ)
    (m₁ m₂ : Metric) (hdb : db₁ = db₂) (hms : ms₁ = ms₂) (hm : m₁ = m₂)
    (hθ : θ₁ = θ₂) :
    apriori db₁ ms₁ = apriori db₂ ms₂ ∧
    associationRules db₁ (aprioriSets db₁ ms₁) m₁ θ₁ =
      associationRules db₂ (aprioriSets db₂ ms₂) m₂ θ₂ := by
  subst hdb
  subst hms
  subst hm
  subst hθ
  exact ⟨rfl, rfl⟩

/-- Witness for C8: two runs with identical inputs on the spec §8
scenario database. -/
theorem mining_deterministic_witness :
    exampleDB = exampleDB ∧
    (apriori exampleDB (1/2) = apriori exampleDB (1/2) ∧
      associationRules exampleDB (aprioriSets exampleDB (1/2))
          Metric.lift (6/5) =
        associationRules exampleDB (aprioriSets exampleDB (1/2))
          Metric.lift (6/5)) :=
  ⟨rfl, mining_deterministic exampleDB exampleDB (1/2) (1/2) (6/5) (6/5)
    Metric.lift Metric.lift rfl rfl rfl rfl⟩

theorem charListLe_iff_not_lt (l₁ l₂ : List Char) :
    charListLe l₁ l₂ = true ↔ ¬ l₂ < l₁ := by
  induction l₁ generalizing l₂ with
  | nil =>
      constructor
      · intro _ h
        cases h
      · intro _
        rfl
  | cons a as ih =>
      cases l₂ with
      | nil =>
          constructor
          · intro h
            rw [show charListLe (a :: as) [] = false from rfl] at h
            cases h
          · intro h
            exact (h List.Lex.nil).elim
      | cons b bs =>
          rw [charListLe]
          by_cases hab : a < b
          · rw [if_pos hab]
            constructor
            · intro _ h
              cases h with
              | rel h1 => exact absurd hab (asymm h1)
              | cons h3 => exact absurd hab (lt_irrefl _)
            · intro _
              rfl
          · by_cases hba : b < a
            · rw [if_neg hab, if_pos hba]
              constructor
              · intro h
                cases h
              · intro h
                exact (h (List.Lex.rel hba)).elim
            · rw [if_neg hab, if_neg hba]
              have heq : a = b :=
                le_antisymm (le_of_not_lt hba) (le_of_not_lt hab)
              subst heq
              rw [ih bs]
              constructor
              · intro h hlt
                cases hlt with
                | rel h1 => exact lt_irrefl _ h1
                | cons h3 => exact h h3
              · intro h hlt
                exact h (List.Lex.cons hlt)

/-- The canonical item order agrees with the library order on strings. -/
theorem itemLe_iff {s t : String} : itemLe s t = true ↔ s ≤ t := by
  rw [← not_lt, String.lt_iff_toList_lt]
  exact charListLe_iff_not_lt s.data t.data

theorem insertItem_perm (x : String) (l : List String) :
    List.Perm (insertItem x l) (x :: l) := by
  induction l with
  | nil => exact List.Perm.refl _
  | cons y ys ih =>
      rw [insertItem]
      by_cases hxy : itemLe x y = true
      · rw [if_pos hxy]
      · rw [if_neg hxy]
        exact (ih.cons y).trans (List.Perm.swap x y ys)

theorem sortItems_perm (l : List String) : List.Perm (sortItems l) l := by
  induction l with
  | nil => exact List.Perm.refl _
  | cons x xs ih =>
      exact (insertItem_perm x (sortItems xs)).trans (ih.cons x)

theorem sorted_insertItem (x : String) {l : List String}
    (h : List.Sorted (· ≤ ·) l) : List.Sorted (· ≤ ·) (insertItem x l) := by
  induction l with
  | nil => simp [insertItem]
  | cons y ys ih =>
      rw [insertItem]
      rcases List.sorted_cons.mp h with ⟨hy, hys⟩
      by_cases hxy : itemLe x y = true
      · rw [if_pos hxy]
        refine List.sorted_cons.mpr ⟨?_, h⟩
        intro z hz
        rcases List.mem_cons.mp hz with rfl | hz
        · exact itemLe_iff.mp hxy
        · exact le_trans (itemLe_iff.mp hxy) (hy z hz)
      · rw [if_neg hxy]
        refine List.sorted_cons.mpr ⟨?_, ih hys⟩
        intro z hz
        rcases List.mem_cons.mp ((insertItem_perm x ys).mem_iff.mp hz)
            with rfl | hz
        · exact le_of_not_le (fun hle => hxy (itemLe_iff.mpr hle))
        · exact hy z hz

theorem sorted_sortItems (l : List String) :
    List.Sorted (· ≤ ·) (sortItems l) := by
  induction l with
  | nil => simp [sortItems]
  | cons x xs ih => exact sorted_insertItem x ih

theorem mem_cleanList (t : List String) (x : String) :
    x ∈ cleanList t ↔ x ≠ "" ∧ ∃ y ∈ t, strip y = x := by
  rw [cleanList, List.mem_filter]
  constructor
  · rintro ⟨hmem, hne⟩
    rcases List.mem_map.mp hmem with ⟨y, hy, rfl⟩
    exact ⟨by simpa using hne, y, hy, rfl⟩
  · rintro ⟨hne, y, hy, rfl⟩
    exact ⟨List.mem_map.mpr ⟨y, hy, rfl⟩, by simpa using hne⟩

theorem mem_cleanTransaction (t : List String) (x : String) :
    x ∈ cleanTransaction t ↔ x ≠ "" ∧ ∃ y ∈ t, strip y = x := by
  rw [cleanTransaction, List.mem_toFinset]
  exact mem_cleanList t x

/-- C5: the transaction encoder fails with InvalidInputError — and in
particular does not return any (empty) result — when the transaction
sequence is empty or every transaction resolves to the empty item set. -/
theorem encoder_rejects_empty_input (raw : List (List String))
    (h : raw = [] ∨ ∀ t ∈ raw, cleanTransaction t = ∅) :
    encode raw = Except.error MiningError.invalidInput ∧
      ∀ out : List String × List (Finset String),
        encode raw ≠ Except.ok out := by
  have hitems : ((raw.map cleanList).flatten).dedup = [] := by
    rcases h with rfl | h
    · rfl
    · rw [List.dedup_eq_nil, List.flatten_eq_nil_iff]
      intro l hl
      rcases List.mem_map.mp hl with ⟨t, ht, rfl⟩
      have hres := h t ht
      rwa [cleanTransaction, List.toFinset_eq_empty_iff] at hres
  refine ⟨?_, ?_⟩
  · rw [encode, if_pos hitems]
  · intro out hout
    rw [encode, if_pos hitems] at hout
    cases hout

/-- Witness for C5: the empty transaction sequence. -/
theorem encoder_rejects_empty_input_witness :
    (([] : List (List String)) = [] ∨
      ∀ t ∈ ([] : List (List String)), cleanTransaction t = ∅) ∧
    (encode [] = Except.error MiningError.invalidInput ∧
      ∀ out : List String × List (Finset String),
        encode [] ≠ Except.ok out) :=
  ⟨Or.inl rfl, encoder_rejects_empty_input [] (Or.inl rfl)⟩

/-- C9: on success the encoder returns the sorted universe of distinct
non-empty items, and for each transaction index the resolved item set with
duplicates collapsed (set semantics) and empty/blank labels discarded. -/
theorem encoder_output_correct (raw : List (List String))
    (univ : List String) (txs : List (Finset String))
    (h : encode raw = Except.ok (univ, txs)) :
    List.Sorted (· ≤ ·) univ ∧ univ.Nodup ∧
    (∀ x, x ∈ univ ↔ x ≠ "" ∧ ∃ t ∈ raw, ∃ y ∈ t, strip y = x) ∧
    txs.length = raw.length ∧
    (∀ i : ℕ, txs[i]? = (raw[i]?).map cleanTransaction) ∧
    (∀ t : List String, ∀ x,
      x ∈ cleanTransaction t ↔ x ≠ "" ∧ ∃ y ∈ t, strip y = x) := by
  rw [encode] at h
  split at h
  · cases h
  · injection h with h
    injection h with h1 h2
    subst h1
    subst h2
    refine ⟨sorted_sortItems _, ?_, ?_, ?_, ?_, mem_cleanTransaction⟩
    · exact (sortItems_perm _).nodup_iff.mpr (List.nodup_dedup _)
    · intro x
      rw [(sortItems_perm _).mem_iff, List.mem_dedup, List.mem_flatten]
      constructor
      · rintro ⟨l, hl, hx⟩
        rcases List.mem_map.mp hl with ⟨t, ht, rfl⟩
        rcases (mem_cleanList t x).mp hx with ⟨hne, y, hy, hyx⟩
        exact ⟨hne, t, ht, y, hy, hyx⟩
      · rintro ⟨hne, t, ht, y, hy, hyx⟩
        exact ⟨cleanList t, List.mem_map.mpr ⟨t, ht, rfl⟩,
          (mem_cleanList t x).mpr ⟨hne, y, hy, hyx⟩⟩
    · exact List.length_map raw cleanTransaction
    · intro i
      exact List.getElem?_map cleanTransaction raw i

/-- Witness for C9: one transaction with a duplicate label, a blank-padded
label and an empty label. -/
theorem encoder_output_correct_witness :
    encode [["b", " a ", "a", ""]] =
        Except.ok (["a", "b"], [({"b", "a"} : Finset String)]) ∧
    (List.Sorted (· ≤ ·) ["a", "b"] ∧ (["a", "b"] : List String).Nodup ∧
      (∀ x, x ∈ (["a", "b"] : List String) ↔
        x ≠ "" ∧ ∃ t ∈ [["b", " a ", "a", ""]], ∃ y ∈ t, strip y = x) ∧
      ([({"b", "a"} : Finset String)]).length = [["b", " a ", "a", ""]].length ∧
      (∀ i : ℕ, ([({"b", "a"} : Finset String)])[i]? =
        ([["b", " a ", "a", ""]][i]?).map cleanTransaction) ∧
      (∀ t : List String, ∀ x,
        x ∈ cleanTransaction t ↔ x ≠ "" ∧ ∃ y ∈ t, strip y = x)) :=
  ⟨rfl, encoder_output_correct [["b", " a ", "a", ""]] ["a", "b"]
    [({"b", "a"} : Finset String)] rfl⟩

/-- C10: a record whose amenities field equals the placeholder
`'NoAmenities'` contributes a basket of exactly the five structural labels
(price bin, size bin, bedroom label, bathroom label, state) — no amenity
items, so in particular the placeholder itself is never emitted as an
item of the amenity portion. -/
theorem noAmenities_not_emitted (r : ListingRecord)
    (h : r.amenities = "NoAmenities") :
    buildBasket r = [r.priceBin, r.sizeBin, r.bedLabel, r.bathLabel, r.state] := by
  simp [buildBasket, h]

/-- Witness for C10 at a concrete record with the placeholder amenities
value. -/
theorem noAmenities_not_emitted_witness :
    (ListingRecord.mk "Rent_Low" "Size_Small" "2_Beds" "1_Baths" "TX"
        "NoAmenities").amenities = "NoAmenities" ∧
    buildBasket (ListingRecord.mk "Rent_Low" "Size_Small" "2_Beds" "1_Baths"
        "TX" "NoAmenities") =
      ["Rent_Low", "Size_Small", "2_Beds", "1_Baths", "TX"] :=
  ⟨rfl, noAmenities_not_emitted
    (ListingRecord.mk "Rent_Low" "Size_Small" "2_Beds" "1_Baths" "TX"
      "NoAmenities") rfl⟩

/-- Sanity check (spec §8): support(\x7bA,B\x7d) = 2/5 on the concrete
scenario. -/
theorem scenario_support_pair : support exampleDB {0, 1} = 2/5 := by
  have h : supportCount exampleDB {0, 1} = 2 := by decide
  rw [support, h, show ((exampleDB.length : ℕ) : ℚ) = 5 from by norm_num [exampleDB]]
  norm_num

/-- Sanity check (spec §8): \x7bA,B\x7d is frequent at min_support = 2/5. -/
theorem scenario_frequent_pair :
    ({0, 1} : Finset ℕ) ∈ aprioriSets exampleDB (2/5) := by
  rw [mem_aprioriSets_iff exampleDB (show (0 : ℚ) < 2/5 by norm_num)
    (show ({0, 1} : Finset ℕ).Nonempty from ⟨0, by decide⟩)]
  rw [scenario_support_pair]

/-- Sanity check (spec §8): \x7bA,B,C\x7d has support 1/5 < 2/5 and is not
frequent at min_support = 2/5. -/
theorem scenario_triple_not_frequent :
    ({0, 1, 2} : Finset ℕ) ∉ aprioriSets exampleDB (2/5) := by
  rw [mem_aprioriSets_iff exampleDB (show (0 : ℚ) < 2/5 by norm_num)
    (show ({0, 1, 2} : Finset ℕ).Nonempty from ⟨0, by decide⟩)]
  have h : supportCount exampleDB {0, 1, 2} = 1 := by decide
  rw [support, h, show ((exampleDB.length : ℕ) : ℚ) = 5 from by norm_num [exampleDB]]
  norm_num

end AssocMining
